import Mathlib

/-!
Shallow embedding of `src/neural_net.cpp`: a small fully-connected
feed-forward classifier with a concurrent training/evaluation engine.

Numeric values held in C++ `double`s are modelled as exact rationals (ℚ)
for the data pipeline and as real numbers (ℝ) for the transcendental
activation function; machine-unsigned arithmetic is modelled as ℕ with an
explicit `% 2^32` where the source wraps.
-/

namespace NeuralNet

/-! ## Data model (`create_data`, lines 93-101)

`variable_names` has 13 entries, the last being the discriminant `Lb_M`.
Each sample is an array of `full_variable_count + 1` doubles: the 13
variables followed by the score (`data[i][full_variable_count] = score`,
line 142), which is written from a `bool` and hence is exactly 0 or 1. -/

def full_variable_count : ℕ := 13

def variable_count : ℕ := full_variable_count - 1

/-- One sample: the 13 read variables plus the score slot. -/
structure Sample where
  features : Fin full_variable_count → ℚ
  score : ℚ

/-- The discriminant is the last variable, `e[full_variable_count - 1]` (`Lb_M`). -/
def discriminant (s : Sample) : ℚ :=
  s.features ⟨full_variable_count - 1, by decide⟩

/-- The window test of line 162: `std::abs(e[full_variable_count - 1] - 5619.60) < 300.0`. -/
def inWindow (s : Sample) : Bool :=
  |discriminant s - 5619.60| < 300.0

/-- The erase predicate of line 162: the `bool` window test is converted to
`double` (1 or 0) and compared with the stored score, and the sample is
erased when they differ:
`(std::abs(e[full_variable_count - 1] - 5619.60) < 300.0) != e[full_variable_count]`. -/
def erasePred (s : Sample) : Bool :=
  (if inWindow s then (1 : ℚ) else 0) ≠ s.score

/-- `std::erase_if(data, erasePred)`: the retained dataset. -/
def label_filter (data : List Sample) : List Sample :=
  data.filter (fun s => ¬ erasePred s)

/-! ## C1: the label-consistency filter -/

/-- A concrete sample loaded from a simulated (signal, score 1) file whose
discriminant sits at the centre of the window. -/
def sampleSigInWindow : Sample :=
  { features := fun _ => 5619.60, score := 1 }

/-- **C1 counterexample.** The claim says a retained sample is in the window
iff its label is background (score 0). `sampleSigInWindow` is retained by
the filter, lies inside the window, yet its score is 1 (signal), so the
claimed equivalence fails on a retained sample. -/
theorem C1_filter_background_counterexample :
    sampleSigInWindow ∈ label_filter [sampleSigInWindow]
      ∧ inWindow sampleSigInWindow = true
      ∧ sampleSigInWindow.score ≠ 0 := by
  refine ⟨?_, ?_, by norm_num [sampleSigInWindow]⟩
  · simp only [label_filter, erasePred, sampleSigInWindow, inWindow, discriminant,
      List.mem_filter, List.mem_singleton, true_and]
    norm_num
  · simp only [inWindow, discriminant, sampleSigInWindow, decide_eq_true_eq]
    norm_num

/-- **C1 (amended).** For samples whose score slot is exactly 0 or 1 (as
written by `read_from_file`), the filter retains a sample iff window
membership agrees with the *signal* label (score 1): a retained sample's
discriminant lies in the window iff the sample is signal (score 1, from
the simulated files); samples where window membership and signal-label
disagree are dropped. -/
theorem C1_filter_consistency (data : List Sample) (s : Sample)
    (hs : s.score = 0 ∨ s.score = 1) :
    s ∈ label_filter data ↔ s ∈ data ∧ (inWindow s = true ↔ s.score = 1) := by
  unfold label_filter erasePred
  rw [List.mem_filter]
  constructor
  · rintro ⟨hmem, hdec⟩
    refine ⟨hmem, ?_⟩
    rcases hs with h0 | h1
    · simp only [h0, decide_not, Bool.not_eq_true', decide_eq_false_iff_not, ne_eq,
        not_not] at hdec
      constructor
      · intro hw
        rw [hw] at hdec
        simp at hdec
      · intro h; rw [h0] at h; norm_num at h
    · simp only [h1, decide_not, Bool.not_eq_true', decide_eq_false_iff_not, ne_eq,
        not_not] at hdec
      constructor
      · intro _; exact h1
      · intro _
        by_contra hw
        rw [Bool.not_eq_true] at hw
        rw [hw] at hdec
        norm_num at hdec
  · rintro ⟨hmem, hiff⟩
    refine ⟨hmem, ?_⟩
    simp only [decide_not, Bool.not_eq_true', decide_eq_false_iff_not, ne_eq, not_not]
    rcases hs with h0 | h1
    · have hw : inWindow s = false := by
        by_contra hc
        rw [Bool.not_eq_false] at hc
        have := hiff.mp hc
        rw [h0] at this; norm_num at this
      rw [hw, h0]; norm_num
    · have hw : inWindow s = true := hiff.mpr h1
      rw [hw, h1]; norm_num

/-- Witness for C1 (amended): the signal in-window sample is retained. -/
theorem C1_filter_consistency_witness :
    sampleSigInWindow ∈ label_filter [sampleSigInWindow]
      ↔ sampleSigInWindow ∈ [sampleSigInWindow]
          ∧ (inWindow sampleSigInWindow = true ↔ sampleSigInWindow.score = 1) :=
  C1_filter_consistency [sampleSigInWindow] sampleSigInWindow (Or.inr (by decide))

/-! ## C4: per-feature normalization (`normalize_variable`, lines 168-177)

`normalize_variable` projects one feature column out of `data` and is here
modelled on that column directly: `std::ranges::max(data, {}, proj)` is the
maximum of the column, and every entry is divided by it in place. -/

/-- `std::ranges::max` of a column (the code never calls it on empty data;
the `[]` case is an arbitrary default). -/
def listMax : List ℚ → ℚ
  | [] => 0
  | x :: xs => xs.foldl max x

/-- `normalize_variable` (lines 168-175): `div` is the maximum of the
column's raw values (not absolute values) and every entry is divided by it. -/
def normalize_variable (col : List ℚ) : List ℚ :=
  let div := listMax col
  col.map (fun x => x / div)

theorem foldl_max_div (d : ℚ) (hd : 0 ≤ d) :
    ∀ (xs : List ℚ) (x : ℚ),
      (xs.map (fun y => y / d)).foldl max (x / d) = (xs.foldl max x) / d := by
  intro xs
  induction xs with
  | nil => intro x; rfl
  | cons a as ih =>
      intro x
      simp only [List.map_cons, List.foldl_cons]
      rw [max_div_div_right hd, ih]

theorem listMax_normalize (col : List ℚ) (hpos : 0 < listMax col) :
    listMax (normalize_variable col) = 1 := by
  cases col with
  | nil => simp [listMax] at hpos
  | cons x xs =>
      have h := foldl_max_div (listMax (x :: xs)) (le_of_lt hpos) xs x
      show (xs.map (fun y => y / listMax (x :: xs))).foldl max (x / listMax (x :: xs)) = 1
      rw [h]
      exact div_self (ne_of_gt hpos)

/-- **C4.** When the column's maximum is positive (as it is for every
physical feature in the dataset), `normalize_variable` divides each value
by that maximum — the signed maximum, not the absolute maximum, and each
value keeps its sign — and the post-normalization maximum of the column is
exactly 1. -/
theorem C4_normalization (col : List ℚ) (hpos : 0 < listMax col) :
    normalize_variable col = col.map (fun x => x / listMax col)
      ∧ (∀ x ∈ col, (x / listMax col < 0 ↔ x < 0) ∧ (0 < x / listMax col ↔ 0 < x))
      ∧ listMax (normalize_variable col) = 1 := by
  refine ⟨rfl, ?_, listMax_normalize col hpos⟩
  intro x _
  constructor
  · rw [div_lt_iff₀ hpos]; simp
  · rw [lt_div_iff₀ hpos]; simp

/-- Witness for C4 on the column `[3, -1, 2]` (maximum 3). -/
theorem C4_normalization_witness :
    normalize_variable [3, -1, 2] = [3, -1, 2].map (fun x => x / listMax [3, -1, 2])
      ∧ ((-1 : ℚ) / listMax [3, -1, 2] < 0 ↔ (-1 : ℚ) < 0)
      ∧ listMax (normalize_variable [3, -1, 2]) = 1 :=
  ⟨(C4_normalization [3, -1, 2] (by norm_num [listMax])).1,
   ((C4_normalization [3, -1, 2] (by norm_num [listMax])).2.1 (-1) (by norm_num)).1,
   (C4_normalization [3, -1, 2] (by norm_num [listMax])).2.2⟩

/-! ## C8: worker-pool size (line 42)

`const std::size_t thread_count{std::max(1u, std::thread::hardware_concurrency() - 1)};`
`hardware_concurrency()` returns `unsigned int`, so the subtraction wraps
modulo 2^32 before the `max` with 1 is applied. -/

def UINT32_MOD : ℕ := 4294967296

/-- Unsigned 32-bit subtraction (wrapping). -/
def usub32 (a b : ℕ) : ℕ := (a % UINT32_MOD + (UINT32_MOD - b % UINT32_MOD)) % UINT32_MOD

/-- `thread_count` (line 42), parameterized by the value
`hardware_concurrency()` returned. -/
def thread_count (hc : ℕ) : ℕ := max 1 (usub32 hc 1)

/-- **C8.** For every reported `hardware_concurrency` value (a 32-bit
unsigned, so `hc < 2^32`): the pool size is `max 1 (hc - 1)` computed with
wrapping unsigned subtraction; for `hc ≥ 1` that is the ordinary
`hc - 1` clamped below by 1, while `hc = 0` wraps to `2^32 - 1` before the
max, giving a pool of 4294967295 threads. -/
theorem C8_thread_count (hc : ℕ) (hhc : hc < UINT32_MOD) :
    thread_count hc = max 1 ((hc + (UINT32_MOD - 1)) % UINT32_MOD)
      ∧ (1 ≤ hc → thread_count hc = max 1 (hc - 1))
      ∧ thread_count 0 = UINT32_MOD - 1
      ∧ thread_count 1 = 1 := by
  have key : usub32 hc 1 = (hc + (UINT32_MOD - 1)) % UINT32_MOD := by
    simp only [usub32, UINT32_MOD] at *
    omega
  have key2 : 1 ≤ hc → usub32 hc 1 = hc - 1 := by
    intro h1
    simp only [usub32, UINT32_MOD] at *
    omega
  refine ⟨?_, ?_, ?_, ?_⟩
  · rw [thread_count, key]
  · intro h1; rw [thread_count, key2 h1]
  · have h0 : usub32 0 1 = UINT32_MOD - 1 := by
      simp only [usub32, UINT32_MOD]
    rw [thread_count, h0]
    simp only [UINT32_MOD]
    omega
  · have h1 : usub32 1 1 = 0 := by
      simp only [usub32, UINT32_MOD]
    rw [thread_count, h1]
    exact Nat.max_zero 1

/-- Witness for C8 at `hc = 8`: a machine reporting 8 hardware threads gets
a pool of 7 workers. -/
theorem C8_thread_count_witness :
    thread_count 8 = max 1 ((8 + (UINT32_MOD - 1)) % UINT32_MOD)
      ∧ thread_count 8 = max 1 (8 - 1)
      ∧ thread_count 0 = UINT32_MOD - 1
      ∧ thread_count 1 = 1 :=
  ⟨(C8_thread_count 8 (by norm_num [UINT32_MOD])).1,
   (C8_thread_count 8 (by norm_num [UINT32_MOD])).2.1 (by norm_num),
   (C8_thread_count 8 (by norm_num [UINT32_MOD])).2.2.1,
   (C8_thread_count 8 (by norm_num [UINT32_MOD])).2.2.2⟩

/-! ## C10: histogram bucket indices (`create_histogram`, lines 219-230)

Line 229 computes `static_cast<std::size_t>(predictions[i] * bucket_count)`
and uses it to index `std::array<..., bucket_count>`. For a nonnegative
prediction the cast truncates toward zero, i.e. takes the floor. -/

def bucket_count : ℕ := 1000

/-- The bucket index of line 229 for a nonnegative prediction. -/
def bucketIndex (p : ℚ) : ℤ := ⌊p * (bucket_count : ℚ)⌋

/-- **C10.** For every prediction in `[0, 1)` the bucket index
`floor(p * 1000)` lies in `[0, 1000)`, so the `histogram` array access is
in bounds; a prediction exactly equal to 1 yields index 1000, one past the
end of the array. -/
theorem C10_histogram_bucket_bounds (p : ℚ) (h0 : 0 ≤ p) (h1 : p < 1) :
    (0 ≤ bucketIndex p ∧ bucketIndex p < bucket_count)
      ∧ bucketIndex 1 = bucket_count := by
  refine ⟨⟨?_, ?_⟩, by norm_num [bucketIndex, bucket_count]⟩
  · exact Int.floor_nonneg.mpr (by positivity)
  · have : p * (bucket_count : ℚ) < (bucket_count : ℚ) := by
      have hb : (0 : ℚ) < (bucket_count : ℚ) := by norm_num [bucket_count]
      calc p * (bucket_count : ℚ) < 1 * (bucket_count : ℚ) :=
            mul_lt_mul_of_pos_right h1 hb
        _ = (bucket_count : ℚ) := one_mul _
    exact_mod_cast Int.floor_lt.mpr (by exact_mod_cast this)

/-- Witness for C10 at `p = 997/1000`: bucket 997, in bounds. -/
theorem C10_histogram_bucket_bounds_witness :
    ((0 ≤ bucketIndex (997/1000) ∧ bucketIndex (997/1000) < bucket_count)
      ∧ bucketIndex 1 = bucket_count) :=
  C10_histogram_bucket_bounds (997/1000) (by norm_num) (by norm_num)

/-! ## C3: train-mode work claiming (`iterate`, lines 452-461)

In train mode each worker executes
`r = reps.fetch_sub(1, std::memory_order_relaxed);` followed by a random
index draw and `if (r <= 0) break;`. C++ `fetch_sub` returns the value
held *before* the decrement. -/

/-- `reps.fetch_sub(1)`: returns the pre-decrement value together with the
new counter value. -/
def fetch_sub (reps : ℤ) : ℤ × ℤ := (reps, reps - 1)

/-- Line 460-461: the worker runs forward+backward on this iteration iff
the value returned by `fetch_sub` is positive (`if (r <= 0) break`). -/
def trainRuns (fetched : ℤ) : Bool := 0 < fetched

/-- Sequential model of one worker's train-mode inner loop: the number of
samples processed before the loop breaks, when the loop's decrements start
from counter value `reps`. -/
def trainLoop (reps : ℤ) : ℕ :=
  if h : 0 < reps then trainLoop (reps - 1) + 1 else 0
termination_by reps.toNat
decreasing_by omega

/-- **C3 counterexample.** With the shared counter at 1 the code runs the
iteration — the fetched pre-decrement value 1 is > 0 — even though the
post-decrement value is 0; the claim's "run iff post-decrement value > 0"
predicts no run there. -/
theorem C3_post_decrement_counterexample :
    trainRuns (fetch_sub 1).1 = true ∧ ¬ (0 < (fetch_sub 1).2) := by
  constructor
  · decide
  · decide

theorem trainLoop_eq_toNat (B : ℤ) : trainLoop B = B.toNat := by
  generalize hn : B.toNat = n
  induction n generalizing B with
  | zero =>
      have h : ¬ 0 < B := by omega
      rw [trainLoop]
      simp [h]
  | succ k ih =>
      have hB : 0 < B := by omega
      rw [trainLoop]
      simp only [hB, dif_pos]
      rw [ih (B - 1) (by omega)]

/-- **C3 (amended).** The counter interaction is fetch-and-decrement, not
decrement-and-fetch: the worker runs forward+backward iff the *fetched
pre-decrement* value is > 0 — equivalently iff the post-decrement value is
≥ 0 — and stops once a fetch returns ≤ 0 (post-decrement ≤ -1); with a
budget of B the loop therefore processes exactly B samples (sequential
model), not B - 1. -/
theorem C3_train_decrement (c B : ℤ) :
    (trainRuns (fetch_sub c).1 = true ↔ 0 ≤ (fetch_sub c).2)
      ∧ (trainRuns (fetch_sub c).1 = false ↔ (fetch_sub c).1 ≤ 0)
      ∧ trainLoop B = B.toNat := by
  refine ⟨?_, ?_, trainLoop_eq_toNat B⟩
  · simp only [trainRuns, fetch_sub, decide_eq_true_eq]
    omega
  · simp only [trainRuns, fetch_sub, decide_eq_false_iff_not]
    omega

/-! ## C6: evaluate-mode coverage (`iterate`, lines 463-471 and 537-538)

In evaluate mode the shared counter starts at 0 and each worker claims
offsets with `r = reps.fetch_add(1, relaxed)`. The values returned by the
atomic fetch_add across all workers during a phase of `m` claims are
exactly 0, 1, ..., m-1, each returned to exactly one thread — that
atomicity is the only concurrency fact this model uses. A claimed offset
`r` is processed (`predictions[index - train_cutoff_index] = score`,
line 538, with `index = train_cutoff_index + r`) iff
`index < data.size()` (line 469-470's break). The phase ends only after
every worker has claimed an offset at or past the suffix end, so at least
`size - cutoff` claims happened. -/

/-- The offsets returned by the fetch_adds of one evaluate phase. -/
def evalClaims (m : ℕ) : List ℕ := List.range m

/-- The prediction-buffer slots written during the phase: offset `r`
(slot `r`, dataset index `cutoff + r`) is written iff `cutoff + r < size`. -/
def evalWrites (m cutoff size : ℕ) : List ℕ :=
  (evalClaims m).filter (fun r => cutoff + r < size)

/-- A finished evaluate phase made at least `size - cutoff` claims. -/
def phaseComplete (m cutoff size : ℕ) : Prop := size - cutoff ≤ m

theorem evalWrites_nodup (m cutoff size : ℕ) : (evalWrites m cutoff size).Nodup :=
  (List.nodup_range m).filter _

/-- **C6.** After one full evaluate phase, every dataset index `i` in
`[cutoff, size)` has its prediction slot `i - cutoff` written exactly
once, and no slot beyond the evaluation suffix is ever written: no index
skipped, none scored twice. -/
theorem C6_evaluation_coverage (m cutoff size : ℕ)
    (hphase : phaseComplete m cutoff size) :
    (∀ i, cutoff ≤ i → i < size →
        (evalWrites m cutoff size).count (i - cutoff) = 1)
      ∧ (∀ r, size ≤ cutoff + r → (evalWrites m cutoff size).count r = 0) := by
  constructor
  · intro i hci his
    have hmem : i - cutoff ∈ evalWrites m cutoff size := by
      unfold evalWrites evalClaims
      rw [List.mem_filter, List.mem_range]
      refine ⟨?_, ?_⟩
      · unfold phaseComplete at hphase
        omega
      · simp only [decide_eq_true_eq]
        omega
    exact List.count_eq_one_of_mem (evalWrites_nodup m cutoff size) hmem
  · intro r hr
    apply List.count_eq_zero_of_not_mem
    unfold evalWrites evalClaims
    rw [List.mem_filter]
    rintro ⟨-, hdec⟩
    simp only [decide_eq_true_eq] at hdec
    omega

/-- Witness for C6: a phase over a 10-sample dataset with cutoff 9
(suffix of 1) and 3 claims covers index 9 exactly once and writes no
out-of-suffix slot. -/
theorem C6_evaluation_coverage_witness :
    (evalWrites 3 9 10).count (9 - 9) = 1 ∧ (evalWrites 3 9 10).count 5 = 0 :=
  ⟨(C6_evaluation_coverage 3 9 10 (by norm_num [phaseComplete])).1 9
      (by norm_num) (by norm_num),
   (C6_evaluation_coverage 3 9 10 (by norm_num [phaseComplete])).2 5
      (by norm_num)⟩

/-! ## C7: feature-length consistency during loading (`read_variable`, lines 112-137)

Inside `read_from_file`, each variable task runs `read_variable`: under
`resize_lock` it resizes `data` to `old_size + variables.size()` if no
other task resized it yet (`data.size() == old_size`), then checks
`old_size + variables.size() != data.size()` and, on mismatch, prints the
diagnostic of line 126 — file path, previous count, variable length,
expected total, variable name — and calls `std::exit(EXIT_FAILURE)`.
The fatal exit is modelled as `Except.error` carrying that diagnostic. -/

/-- The diagnostic printed at line 126 before `std::exit(EXIT_FAILURE)`. -/
structure LoadDiagnostic where
  filePath : String
  previousCount : ℕ
  variableLength : ℕ
  expectedTotal : ℕ
  variableName : String

/-- Size-tracking part of `read_variable`, given the sizes it observes:
`oldSize` = `data.size()` when the file's block began, `dataSize` =
`data.size()` observed under the lock, `vlen` = the retrieved column's
length. Returns the established block size, or the fatal diagnostic. -/
def establishedSize (oldSize dataSize vlen : ℕ) : ℕ :=
  if dataSize = oldSize then oldSize + vlen else dataSize

def read_variable (filePath varName : String) (oldSize dataSize vlen : ℕ) :
    Except LoadDiagnostic ℕ :=
  if oldSize + vlen ≠ establishedSize oldSize dataSize vlen then
    Except.error ⟨filePath, oldSize, vlen, establishedSize oldSize dataSize vlen, varName⟩
  else
    Except.ok (establishedSize oldSize dataSize vlen)

/-- **C7.** Loading never continues past a length mismatch: `read_variable`
returns normally only when `oldSize + vlen` equals the established block
size, and whenever they disagree it terminates fatally with a diagnostic
identifying the file, the previous count, the retrieved length, the
expected total and the offending feature. -/
theorem C7_length_mismatch_fatal (filePath varName : String)
    (oldSize dataSize vlen : ℕ) :
    (∀ est, read_variable filePath varName oldSize dataSize vlen = Except.ok est →
        oldSize + vlen = est)
      ∧ (oldSize + vlen ≠ establishedSize oldSize dataSize vlen →
          read_variable filePath varName oldSize dataSize vlen =
            Except.error ⟨filePath, oldSize, vlen,
              establishedSize oldSize dataSize vlen, varName⟩) := by
  constructor
  · intro est hok
    unfold read_variable at hok
    split at hok
    · cases hok
    · cases hok
      next h => exact not_not.mp h
  · intro hmis
    unfold read_variable
    simp [hmis]

/-- Witness for C7: a second file block of length 3 colliding with an
established size of 5 aborts with the full diagnostic. -/
theorem C7_length_mismatch_fatal_witness :
    read_variable "../data/Lb2pKmm_mgUp_2018.root" "h1_P" 0 5 3 =
      Except.error ⟨"../data/Lb2pKmm_mgUp_2018.root", 0, 3, 5, "h1_P"⟩ := by
  have h := (C7_length_mismatch_fatal "../data/Lb2pKmm_mgUp_2018.root" "h1_P" 0 5 3).2
    (by norm_num [establishedSize])
  simpa [establishedSize] using h

/-! ## C2: the barrier completion action (`combine_updates`, lines 380-442;
worker reset at line 543)

`std::barrier sync_point(thread_count, combine_updates)` runs
`combine_updates` in exactly one elected arriving thread while every other
worker is blocked. The interactive branch (lines 388-433) runs only when
`excess_reps == 0`; it reads operator input and may render diagnostics and
print the weights, but writes only `train` and `excess_reps` — never
`updates` or `connections` — so it is abstracted here as the `controller`
parameter. Each worker's own `updates[thread_no] = {};` (line 543) runs
*after* `sync_point.arrive_and_wait()` returns, i.e. after release. -/

def depth : ℕ := 5

/-- `connections`/`updates[t]`: `depth - 1` square weight matrices. -/
abbrev Weights := Fin (depth - 1) → Fin variable_count → Fin variable_count → ℚ

/-- Lines 382-386: one worker's buffer folded additively into the weights. -/
def addWeights (conn update : Weights) : Weights :=
  fun i j k => conn i j k + update i j k

def zeroWeights : Weights := fun _ _ _ => 0

/-- The shared state visible at a barrier rendezvous. -/
structure SchedulerState where
  connections : Weights
  updates : List Weights
  reps : ℤ
  excess_reps : ℤ
  train : Bool

/-- `combine_updates` (lines 380-440): fold every worker's buffer into
`connections`, run the interactive controller branch when the queued
repetitions are exhausted, then set the next budget
`reps = min(excess_reps, 100)` and charge it against `excess_reps`.
It does not write `updates`. -/
def combine_updates (controller : Bool → ℤ → Bool × ℤ) (s : SchedulerState) :
    SchedulerState :=
  let conn := s.updates.foldl addWeights s.connections
  let te := if s.excess_reps = 0 then controller s.train s.excess_reps
            else (s.train, s.excess_reps)
  let r := min te.2 100
  { connections := conn, updates := s.updates, reps := r,
    excess_reps := te.2 - r, train := te.1 }

/-- Line 543: after the barrier releases it, worker `t` resets its own
gradient buffer (`updates[thread_no] = {};`). -/
def worker_reset (s : SchedulerState) (t : ℕ) : SchedulerState :=
  { s with updates := s.updates.set t zeroWeights }

/-- Every worker performs its post-release reset; each touches only its own
slot, so the canonical order is representative. -/
def all_resets (s : SchedulerState) : SchedulerState :=
  (List.range s.updates.length).foldl worker_reset s

def setZeroUpTo (l : List Weights) (n : ℕ) : List Weights :=
  (List.range n).foldl (fun acc t => acc.set t zeroWeights) l

theorem setZeroUpTo_succ (l : List Weights) (n : ℕ) :
    setZeroUpTo l (n + 1) = (setZeroUpTo l n).set n zeroWeights := by
  unfold setZeroUpTo
  rw [List.range_succ, List.foldl_append]
  rfl

theorem setZeroUpTo_length (l : List Weights) (n : ℕ) :
    (setZeroUpTo l n).length = l.length := by
  induction n with
  | zero => rfl
  | succ k ih => rw [setZeroUpTo_succ, List.length_set, ih]

theorem setZeroUpTo_getElem (l : List Weights) (n i : ℕ) (hi : i < n)
    (hil : i < l.length) : (setZeroUpTo l n)[i]? = some zeroWeights := by
  induction n with
  | zero => omega
  | succ k ih =>
      rw [setZeroUpTo_succ]
      by_cases hik : i = k
      · subst hik
        exact List.getElem?_set_eq_of_lt zeroWeights
          (by rw [setZeroUpTo_length]; exact hil)
      · rw [List.getElem?_set_ne (by omega)]
        exact ih (by omega)

theorem mem_setZeroUpTo_full (l : List Weights) :
    ∀ w ∈ setZeroUpTo l l.length, w = zeroWeights := by
  intro w hw
  obtain ⟨i, hi, hget⟩ := List.mem_iff_getElem.mp hw
  have hil : i < l.length := by rwa [setZeroUpTo_length] at hi
  have h2 : (setZeroUpTo l l.length)[i]? = some w := by
    rw [List.getElem?_eq_getElem hi, hget]
  rw [setZeroUpTo_getElem l l.length i hil hil] at h2
  exact (Option.some_injective _ h2).symm

theorem all_resets_updates (ts : List ℕ) :
    ∀ s : SchedulerState, (ts.foldl worker_reset s).updates
      = ts.foldl (fun acc t => acc.set t zeroWeights) s.updates := by
  induction ts with
  | nil => intro s; rfl
  | cons t ts ih =>
      intro s
      rw [List.foldl_cons, List.foldl_cons, ih]
      rfl

theorem foldl_addWeights_apply (l : List Weights) :
    ∀ (c : Weights) (i : Fin (depth - 1)) (j k : Fin variable_count),
      (l.foldl addWeights c) i j k = c i j k + (l.map (fun u => u i j k)).sum := by
  induction l with
  | nil => intro c i j k; simp
  | cons u us ih =>
      intro c i j k
      rw [List.foldl_cons, ih]
      simp only [addWeights, List.map_cons, List.sum_cons]
      ring

/-- The identity controller and a one-worker state whose single gradient
buffer is all ones. -/
def ctrlId : Bool → ℤ → Bool × ℤ := fun t e => (t, e)

def oneBuf : Weights := fun _ _ _ => 1

def stateOne : SchedulerState :=
  { connections := zeroWeights, updates := [oneBuf], reps := 0,
    excess_reps := 0, train := true }

/-- **C2 counterexample.** The completion action does not reset the
gradient buffers: running `combine_updates` on a state whose single
worker buffer is all ones leaves that buffer in place, so at the moment
the barrier releases the workers the buffer is still nonzero — the
claimed "reset all buffers to zero, and only then release" fails. -/
theorem C2_completion_reset_counterexample :
    (combine_updates ctrlId stateOne).updates = [oneBuf]
      ∧ oneBuf ≠ zeroWeights := by
  refine ⟨rfl, ?_⟩
  intro h
  have h1 := congrFun (congrFun (congrFun h ⟨0, by decide⟩) ⟨0, by decide⟩)
    ⟨0, by decide⟩
  norm_num [oneBuf, zeroWeights] at h1

/-- **C2 (amended).** The completion action, executed by the one elected
thread while all other workers are blocked, folds every worker's gradient
buffer additively into the network weights and runs the controller logic
deciding the next phase's mode and budget, but leaves the buffers
untouched; each worker instead resets its own buffer immediately *after*
being released (line 543), before it processes any sample, so every
gradient buffer is zero by the time its owner starts the next phase's
work — not at the release instant itself. -/
theorem C2_completion_action (controller : Bool → ℤ → Bool × ℤ)
    (s : SchedulerState) :
    (∀ (i : Fin (depth - 1)) (j k : Fin variable_count),
        (combine_updates controller s).connections i j k
          = s.connections i j k + (s.updates.map (fun u => u i j k)).sum)
      ∧ (combine_updates controller s).updates = s.updates
      ∧ (∀ w ∈ (all_resets (combine_updates controller s)).updates,
          w = zeroWeights)
      ∧ (all_resets (combine_updates controller s)).updates.length
          = s.updates.length := by
  refine ⟨?_, rfl, ?_, ?_⟩
  · intro i j k
    exact foldl_addWeights_apply s.updates s.connections i j k
  · intro w hw
    rw [all_resets, all_resets_updates] at hw
    exact mem_setZeroUpTo_full _ w hw
  · rw [all_resets, all_resets_updates]
    exact setZeroUpTo_length _ _

/-- Witness for C2 (amended) on the one-worker all-ones state: the folded
weight at index (0,0,0) equals old weight plus the buffer sum, and the
post-release resets preserve the buffer count. -/
theorem C2_completion_action_witness :
    (combine_updates ctrlId stateOne).connections ⟨0, by decide⟩ ⟨0, by decide⟩
        ⟨0, by decide⟩
      = stateOne.connections ⟨0, by decide⟩ ⟨0, by decide⟩ ⟨0, by decide⟩
        + (stateOne.updates.map
            (fun u => u ⟨0, by decide⟩ ⟨0, by decide⟩ ⟨0, by decide⟩)).sum
      ∧ (all_resets (combine_updates ctrlId stateOne)).updates.length
          = stateOne.updates.length :=
  ⟨(C2_completion_action ctrlId stateOne).1 _ _ _,
   (C2_completion_action ctrlId stateOne).2.2.2⟩

/-! ## C5 and C9: activation function and forward pass
(`logistic` family, lines 185-200; forward pass in `iterate`, lines 473-501)

The `double` computations are given their exact real-valued semantics. -/

noncomputable section

/-- `logistic` (lines 185-188): `1.0 / (1.0 + std::exp(-val)) - 0.5`. -/
def logistic (val : ℝ) : ℝ := 1 / (1 + Real.exp (-val)) - 0.5

/-- `derivative_logistic` (lines 190-195): `exp / pow<2>(1.0 + exp)`. -/
def derivative_logistic (val : ℝ) : ℝ := Real.exp val / (1 + Real.exp val) ^ 2

/-- `derivative_logistic_from_logistic` (lines 197-200):
`(0.5 + val) * (0.5 - val)`. -/
def derivative_logistic_from_logistic (val : ℝ) : ℝ := (0.5 + val) * (0.5 - val)

/-- One forward layer (lines 482-494): each node's pre-activation is the
dot product of the previous layer with its weight row, then the shifted
logistic is applied. -/
def layerStep (conn : Fin variable_count → Fin variable_count → ℝ)
    (prev : Fin variable_count → ℝ) : Fin variable_count → ℝ :=
  fun j => logistic (∑ k, prev k * conn j k)

/-- The node grid `nodes[i]` (lines 473-494): layer 0 is the sample's
input features, each later layer is `layerStep` of the previous one. -/
def nodes (conn : ℕ → Fin variable_count → Fin variable_count → ℝ)
    (input : Fin variable_count → ℝ) : ℕ → Fin variable_count → ℝ
  | 0 => input
  | i + 1 => layerStep (conn i) (nodes conn input i)

/-- Lines 496-501: the scalar score, `logistic(sum of last layer) + 0.5`. -/
def score (conn : ℕ → Fin variable_count → Fin variable_count → ℝ)
    (input : Fin variable_count → ℝ) : ℝ :=
  logistic (∑ i, nodes conn input (depth - 1) i) + 0.5

end

theorem logistic_bounds (x : ℝ) : -(1/2) < logistic x ∧ logistic x < 1/2 := by
  unfold logistic
  have hexp : 0 < Real.exp (-x) := Real.exp_pos _
  have hden : 0 < 1 + Real.exp (-x) := by linarith
  constructor
  · have h1 : 0 < 1 / (1 + Real.exp (-x)) := by positivity
    norm_num
    linarith
  · have h1 : 1 / (1 + Real.exp (-x)) < 1 := by
      rw [div_lt_one hden]; linarith
    rw [one_div] at h1
    norm_num
    linarith

/-- **C5.** For every weight snapshot and every input sample, the forward
pass's scalar score equals the shifted logistic of the sum of all nodes of
the last layer, plus 0.5, and the score lies strictly between 0 and 1. -/
theorem C5_score_range (conn : ℕ → Fin variable_count → Fin variable_count → ℝ)
    (input : Fin variable_count → ℝ) :
    score conn input = logistic (∑ i, nodes conn input (depth - 1) i) + 0.5
      ∧ 0 < score conn input ∧ score conn input < 1 := by
  refine ⟨rfl, ?_, ?_⟩
  · have h := (logistic_bounds (∑ i, nodes conn input (depth - 1) i)).1
    unfold score
    norm_num at h ⊢
    linarith
  · have h := (logistic_bounds (∑ i, nodes conn input (depth - 1) i)).2
    unfold score
    norm_num at h ⊢
    linarith

theorem derivative_logistic_neg_exp (x : ℝ) :
    derivative_logistic x = Real.exp (-x) / (1 + Real.exp (-x)) ^ 2 := by
  unfold derivative_logistic
  rw [Real.exp_neg]
  have hx : Real.exp x ≠ 0 := (Real.exp_pos x).ne'
  have h2 : (1 : ℝ) + Real.exp x ≠ 0 := by positivity
  field_simp
  ring

theorem logistic_hasDerivAt (x : ℝ) :
    HasDerivAt logistic (Real.exp (-x) / (1 + Real.exp (-x)) ^ 2) x := by
  have h1 : HasDerivAt (fun y : ℝ => -y) (-1) x := (hasDerivAt_id x).neg
  have h2 : HasDerivAt (fun y : ℝ => Real.exp (-y)) (Real.exp (-x) * -1) x :=
    (Real.hasDerivAt_exp (-x)).comp x h1
  have h3 : HasDerivAt (fun y : ℝ => 1 + Real.exp (-y)) (0 + Real.exp (-x) * -1) x :=
    (hasDerivAt_const x 1).add h2
  rw [zero_add] at h3
  have hne : (1 : ℝ) + Real.exp (-x) ≠ 0 := by positivity
  have h4 := h3.inv hne
  have h5 := h4.sub_const (0.5 : ℝ)
  have heq : logistic = fun y : ℝ => (1 + Real.exp (-y))⁻¹ - 0.5 := by
    funext y
    simp [logistic, one_div]
  rw [heq]
  convert h5 using 1
  field_simp

/-- **C9.** The backward pass's formula `(0.5 + y)(0.5 - y)`, applied to
the shifted-logistic output `y = logistic x`, equals
`derivative_logistic x = e^x / (1 + e^x)^2`, which is the true derivative
of the shifted logistic at the pre-activation `x`. -/
theorem C9_derivative_from_output (x : ℝ) :
    derivative_logistic_from_logistic (logistic x) = derivative_logistic x
      ∧ HasDerivAt logistic (derivative_logistic x) x := by
  constructor
  · unfold derivative_logistic_from_logistic logistic derivative_logistic
    have hu : Real.exp (-x) = (Real.exp x)⁻¹ := Real.exp_neg x
    have hx : Real.exp x ≠ 0 := (Real.exp_pos x).ne'
    have hxpos : 0 < Real.exp x := Real.exp_pos x
    have h1 : (1 : ℝ) + (Real.exp x)⁻¹ ≠ 0 := by positivity
    have h2 : (1 : ℝ) + Real.exp x ≠ 0 := by positivity
    rw [hu]
    field_simp
    ring
  · rw [derivative_logistic_neg_exp]
    exact logistic_hasDerivAt x

end NeuralNet
